import Mathlib

/-!
Verification of the tmux control-mode layer of `src/Vt102Emulation.h`
(camaclean/konsole). The parsers and the `TmuxServerManager` command
queue are shallowly embedded: code points are `Nat`, the `uint`
accumulator wraps modulo `2^32` where the source relies on unsigned
arithmetic, C++ `int` values are `Int`, and Qt containers become lists.
-/

namespace Konsole

/-- A decimal digit code point, `0x30 ≤ cc ≤ 0x39`. -/
def isDigitCh (c : Nat) : Bool := decide (48 ≤ c ∧ c ≤ 57)

/-- ASCII whitespace, the characters trimmed by the C-locale number
parsers of Qt (space and `0x09`–`0x0D`). -/
def isSpaceCh (c : Nat) : Bool := decide (c = 32 ∨ (9 ≤ c ∧ c ≤ 13))

/-- Value of a list of decimal digit code points, most significant first. -/
def digitsVal (cs : List Nat) : Nat := cs.foldl (fun a c => a * 10 + (c - 48)) 0

/-- Strip leading and trailing ASCII whitespace. -/
def trimWs (cs : List Nat) : List Nat :=
  ((cs.dropWhile isSpaceCh).reverse.dropWhile isSpaceCh).reverse

/-- Split an optional single leading sign (`+` or `-`) off a trimmed
string, returning the sign factor and the remaining characters. -/
def signSplit (t : List Nat) : Int × List Nat :=
  if t.headD 0 = 43 then (1, t.tail)
  else if t.headD 0 = 45 then (-1, t.tail)
  else (1, t)

/-- Model of `QString::toInt` (C locale): surrounding whitespace is
ignored, an optional single sign is followed by one or more decimal
digits, and the value must fit in a 32-bit `int`. Returns the parsed
value together with the `ok` flag; on failure the result is `(0, false)`. -/
def qstringToInt (cs : List Nat) : Int × Bool :=
  if (signSplit (trimWs cs)).2 ≠ [] ∧ (signSplit (trimWs cs)).2.all isDigitCh then
    if -2147483648 ≤ (signSplit (trimWs cs)).1 * (digitsVal (signSplit (trimWs cs)).2 : Nat)
        ∧ (signSplit (trimWs cs)).1 * (digitsVal (signSplit (trimWs cs)).2 : Nat)
          ≤ 2147483647 then
      ((signSplit (trimWs cs)).1 * (digitsVal (signSplit (trimWs cs)).2 : Nat), true)
    else (0, false)
  else (0, false)

/-- Model of `QString::toULongLong` (C locale): surrounding whitespace is
ignored, an optional `+` is followed by one or more decimal digits, and
the value must fit in 64 bits; on failure the result is `(0, false)`. -/
def qstringToULL (cs : List Nat) : Nat × Bool :=
  let t := trimWs cs
  let sd : List Nat := if t.headD 0 = 43 then t.tail else t
  if sd ≠ [] ∧ sd.all isDigitCh ∧ digitsVal sd < 18446744073709551616 then
    (digitsVal sd, true)
  else (0, false)

/-- `parseTmuxId<C>(lexBuffer, ok)` from `Vt102Emulation.h:416`.
`okPassed` records whether the caller passed a non-null `ok` pointer.
The first component is the returned `int`, with `none` meaning the
source returns the local `ret` without any branch having assigned it
(an uninitialized read); the second component is the value stored in
`*ok`, with `none` when `ok` is null or never written. -/
def parseTmuxId (C : Nat) (buf : List Nat) (okPassed : Bool) : Option Int × Option Bool :=
  if buf.length = 2 ∧ buf.headD 0 = C ∧ buf.getD 1 0 = 42 then
    (some (-1), if okPassed then some true else none)
  else if 2 ≤ buf.length ∧ buf.headD 0 = C then
    let r := qstringToInt (buf.drop 1)
    (some r.1, if okPassed then some r.2 else none)
  else if okPassed then (some (-2), some false)
  else (none, none)

/-- The call pattern used by every notification parser in the repo:
`parseTmuxId` with a non-null `ok`, which always assigns both. -/
def parseTmuxIdOk (C : Nat) (buf : List Nat) : Int × Bool :=
  ((parseTmuxId C buf true).1.getD 0, (parseTmuxId C buf true).2.getD false)

/-- `parseTmuxSessionId`: prefix `$` (0x24). -/
def parseTmuxSessionId (buf : List Nat) (okPassed : Bool) : Option Int × Option Bool :=
  parseTmuxId 36 buf okPassed

/-- `parseTmuxWindowId`: prefix `@` (0x40). -/
def parseTmuxWindowId (buf : List Nat) (okPassed : Bool) : Option Int × Option Bool :=
  parseTmuxId 64 buf okPassed

/-- `parseTmuxPaneId`: prefix `%` (0x25). -/
def parseTmuxPaneId (buf : List Nat) (okPassed : Bool) : Option Int × Option Bool :=
  parseTmuxId 37 buf okPassed

/-- Parser state of `TmuxOutputNotification` (`Vt102Emulation.h:652`):
argument index, octal-escape counter, the `uint` escape accumulator,
the payload buffer and the parsed pane id. -/
structure TmuxOutputSt where
  arg : Nat
  octParse : Nat
  octParseChar : Nat
  lexBuffer : List Nat
  pane : Int
deriving DecidableEq, Repr

/-- `TmuxOutputNotification::push_char`. While `arg = 0` the pane-id
argument is lexed up to the first space; afterwards the payload is
accumulated, decoding `\ooo` octal escapes. The accumulator is a C++
`uint`, hence the `% 2^32`. -/
def outputPushChar (s : TmuxOutputSt) (cc : Nat) : TmuxOutputSt :=
  if s.arg = 0 then
    if cc = 32 then
      { s with pane := (parseTmuxIdOk 37 s.lexBuffer).1, lexBuffer := [], arg := 1 }
    else
      { s with lexBuffer := s.lexBuffer ++ [cc] }
  else
    if cc = 92 then
      { s with octParse := 1 }
    else if 0 < s.octParse ∧ s.octParse < 4 then
      if 48 ≤ cc ∧ cc ≤ 57 then
        if s.octParse + 1 = 4 then
          { s with lexBuffer := s.lexBuffer ++ [(s.octParseChar * 8 + (cc - 48)) % 4294967296],
                   octParseChar := 0, octParse := 0 }
        else
          { s with octParseChar := (s.octParseChar * 8 + (cc - 48)) % 4294967296,
                   octParse := s.octParse + 1 }
      else
        { s with lexBuffer := s.lexBuffer ++ [s.octParseChar, cc],
                 octParseChar := 0, octParse := 0 }
    else
      { s with lexBuffer := s.lexBuffer ++ [cc] }

/-- Feeding a whole line (one code point at a time) to
`TmuxOutputNotification::push_char`. -/
def outputRun (s : TmuxOutputSt) (cs : List Nat) : TmuxOutputSt :=
  cs.foldl outputPushChar s

/-- Parser state of `TmuxExtendedOutputNotification`
(`Vt102Emulation.h:539`). -/
structure TmuxExtOutputSt where
  arg : Nat
  octParse : Nat
  octParseChar : Nat
  lexBuffer : List Nat
  pane : Int
  age : Nat
deriving DecidableEq, Repr

/-- `TmuxExtendedOutputNotification::push_char`. Arguments 0 (pane id),
1 (age) and 2 (a literal `:`) are lexed up to spaces; in the `arg = 3`
phase the payload is accumulated with the same octal-escape decoding as
`%output`. Note the faithful reproduction of the source fall-through: a
non-space character seen while `arg = 2` matches no branch at all. -/
def extOutputPushChar (s : TmuxExtOutputSt) (cc : Nat) : TmuxExtOutputSt :=
  if s.arg = 0 ∧ cc = 32 then
    { s with pane := (parseTmuxIdOk 37 s.lexBuffer).1, lexBuffer := [], arg := s.arg + 1 }
  else if s.arg = 1 ∧ cc = 32 then
    { s with age := (qstringToULL s.lexBuffer).1, lexBuffer := [], arg := s.arg + 1 }
  else if s.arg = 2 ∧ cc = 32 then
    if s.lexBuffer = [58] then
      { s with lexBuffer := [], arg := s.arg + 1 }
    else
      { s with lexBuffer := [] }
  else if s.arg < 2 then
    { s with lexBuffer := s.lexBuffer ++ [cc] }
  else if s.arg = 3 then
    if cc = 92 then
      { s with octParse := 1 }
    else if 0 < s.octParse ∧ s.octParse < 4 then
      if 48 ≤ cc ∧ cc ≤ 57 then
        if s.octParse + 1 = 4 then
          { s with lexBuffer := s.lexBuffer ++ [(s.octParseChar * 8 + (cc - 48)) % 4294967296],
                   octParseChar := 0, octParse := 0 }
        else
          { s with octParseChar := (s.octParseChar * 8 + (cc - 48)) % 4294967296,
                   octParse := s.octParse + 1 }
      else
        { s with lexBuffer := s.lexBuffer ++ [s.octParseChar, cc],
                 octParseChar := 0, octParse := 0 }
    else
      { s with lexBuffer := s.lexBuffer ++ [cc] }
  else s

/-- Feeding a whole line to `TmuxExtendedOutputNotification::push_char`. -/
def extOutputRun (s : TmuxExtOutputSt) (cs : List Nat) : TmuxExtOutputSt :=
  cs.foldl extOutputPushChar s

/-- The escape-decoding step shared (textually) by the payload phases of
`%output` and `%extended-output`, expressed on the triple
(octParse, octParseChar, lexBuffer). Used only to relate the two
source-derived `push_char` models. -/
def octStep (t : Nat × Nat × List Nat) (cc : Nat) : Nat × Nat × List Nat :=
  if cc = 92 then
    (1, t.2.1, t.2.2)
  else if 0 < t.1 ∧ t.1 < 4 then
    if 48 ≤ cc ∧ cc ≤ 57 then
      if t.1 + 1 = 4 then
        (0, 0, t.2.2 ++ [(t.2.1 * 8 + (cc - 48)) % 4294967296])
      else
        (t.1 + 1, (t.2.1 * 8 + (cc - 48)) % 4294967296, t.2.2)
    else
      (0, 0, t.2.2 ++ [t.2.1, cc])
  else
    (t.1, t.2.1, t.2.2 ++ [cc])

/-- Folding the shared escape step over a line. -/
def octRun (t : Nat × Nat × List Nat) (cs : List Nat) : Nat × Nat × List Nat :=
  cs.foldl octStep t

/-- Parser state of `TmuxWindowAddNotification` (`Vt102Emulation.h:974`);
also used for the other window-id notifications, which share the layout. -/
structure TmuxWindowAddSt where
  arg : Nat
  window : Int
deriving DecidableEq, Repr

/-- `TmuxWindowAddNotification::push_char`. Note the source digit test is
`cc > 0x30 && cc <= 0x39`, which excludes the digit `0`. -/
def windowAddPushChar (s : TmuxWindowAddSt) (cc : Nat) : TmuxWindowAddSt :=
  if s.arg = 0 ∧ cc = 64 then
    { s with arg := 1 }
  else if s.arg = 1 ∧ 48 < cc ∧ cc ≤ 57 then
    { s with window := s.window * 10 + ((cc - 48 : Nat) : Int) }
  else
    { arg := 2, window := -2 }

/-- `TmuxUnlinkedWindowAddNotification::push_char`
(`Vt102Emulation.h:913`). Unlike `TmuxWindowAddNotification`, the first
`if` is not chained with `else`: after `@` sets `arg` to 1, the same
character falls through into the digit test and, failing it, into the
error branch. -/
def unlinkedWindowAddPushChar (s : TmuxWindowAddSt) (cc : Nat) : TmuxWindowAddSt :=
  let s1 := if s.arg = 0 ∧ cc = 64 then { s with arg := 1 } else s
  if s1.arg = 1 ∧ 48 < cc ∧ cc ≤ 57 then
    { s1 with window := s1.window * 10 + ((cc - 48 : Nat) : Int) }
  else
    { arg := 2, window := -2 }

/-- Feeding a whole line to `TmuxWindowAddNotification::push_char`; the
value that `execute` then passes to `receiveWindowAdd` is the `window`
field of the result. -/
def windowAddRun (s : TmuxWindowAddSt) (cs : List Nat) : TmuxWindowAddSt :=
  cs.foldl windowAddPushChar s

/-- Feeding a whole line to `TmuxUnlinkedWindowAddNotification::push_char`. -/
def unlinkedWindowAddRun (s : TmuxWindowAddSt) (cs : List Nat) : TmuxWindowAddSt :=
  cs.foldl unlinkedWindowAddPushChar s

/-- Events driving the `TmuxServerManager` command queue: a call to the
`sendCommand` slot (the command is abstracted to an identifier, since the
queue logic never inspects it), the arrival of a `%begin ... %end`
response body (`receiveCommandResponse`) and of a `%begin ... %error`
body (`receiveCommandError`). -/
inductive TmuxMgrEv
  | send (c : Nat)
  | response
  | error
deriving DecidableEq, Repr

/-- Queue state of `TmuxServerManager`. `current` models
`m_currentCommand`: `some c` when the stored command is truthy (both of
its handlers non-null), `none` once a handler has been dispatched and
reset, which is exactly how `if (m_currentCommand)` branches in the
source. `emitted` records the `doSendCommand` signals in order and
`delivered` the handler invocations `(command, isError)` in order. -/
structure TmuxMgrSt where
  current : Option Nat
  pending : List Nat
  emitted : List Nat
  delivered : List (Nat × Bool)
deriving DecidableEq, Repr

/-- The constructor state: no command in flight, and the queue pre-seeded
with the attach command `TmuxCommand{"", tmuxAttachHandler}`, modelled by
the reserved identifier 0. -/
def tmuxMgrInit : TmuxMgrSt := ⟨none, [0], [], []⟩

/-- One event of the `TmuxServerManager` queue, combining `sendCommand`
(`Vt102Emulation.h:336`), `receiveCommandResponse` (`:261`) and
`receiveCommandError` (`:249`). On a response the in-flight command is
dispatched and the next pending command, if any, is dequeued and
emitted; on an error the in-flight command is dispatched and the queue
is left untouched, exactly as in the source. -/
def tmuxMgrStep (s : TmuxMgrSt) (e : TmuxMgrEv) : TmuxMgrSt :=
  match e with
  | .send c =>
    match s.current with
    | none => { s with current := some c, emitted := s.emitted ++ [c] }
    | some _ => { s with pending := s.pending ++ [c] }
  | .response =>
    match s.current with
    | none => s
    | some c =>
      match s.pending with
      | [] => { s with current := none, delivered := s.delivered ++ [(c, false)] }
      | d :: rest =>
        { s with current := some d, pending := rest,
                 emitted := s.emitted ++ [d], delivered := s.delivered ++ [(c, false)] }
  | .error =>
    match s.current with
    | none => s
    | some c => { s with current := none, delivered := s.delivered ++ [(c, true)] }

/-- Running the manager from its constructor state over an event trace. -/
def tmuxMgrRun (es : List TmuxMgrEv) : TmuxMgrSt :=
  es.foldl tmuxMgrStep tmuxMgrInit

/-- The commands passed to `sendCommand` along a trace, in call order. -/
def sendIds (es : List TmuxMgrEv) : List Nat :=
  es.filterMap (fun e => match e with | .send c => some c | _ => none)

/-- The commands whose response (not error) handler has been invoked, in
invocation order. -/
def respDelivered (s : TmuxMgrSt) : List Nat :=
  s.delivered.filterMap (fun p => if p.2 then none else some p.1)

/-- Restriction of a command list to the commands that were passed to
`sendCommand` (discarding the pre-seeded attach command). -/
def keepSent (xs sends : List Nat) : List Nat :=
  xs.filter (fun x => decide (x ∈ sends))

/-- A trace along which tmux reports no `%error`. -/
abbrev errorFree (es : List TmuxMgrEv) : Prop :=
  ∀ e ∈ es, e ≠ TmuxMgrEv.error

/-- All command identifiers held in a manager state. -/
def mgrIds (s : TmuxMgrSt) : List Nat :=
  s.delivered.map Prod.fst ++ s.current.toList ++ s.pending

/-- Invariant of error-free runs: the dispatched commands, the in-flight
command and the queued commands — each restricted to commands passed to
`sendCommand` — laid end to end are exactly the `sendCommand` calls in
call order; every held identifier is the attach command or a sent one;
and an empty in-flight slot means no sent command is left queued. -/
abbrev mgrInv (s : TmuxMgrSt) (sends : List Nat) : Prop :=
  keepSent (respDelivered s) sends ++ keepSent s.current.toList sends
      ++ keepSent s.pending sends = sends
  ∧ (∀ x ∈ mgrIds s, x = 0 ∨ x ∈ sends)
  ∧ (s.current = none → keepSent s.pending sends = [])

/-- The follow-up command text built by `receiveSessionChanged`
(`Vt102Emulation.h:298`): note the format argument is `m_activeSession`,
the active session at call time, not the `session` parameter. -/
def konsoleSizeCmd (activeSession : Int) : String :=
  "show -v -q -t $" ++ toString activeSession ++ " @konsole_size"

/-- `TmuxServerManager::receiveSessionChanged` (`Vt102Emulation.h:291`),
acting on the session table (`m_sessions`, as an association list) and
`m_activeSession`. Returns the new table, the new active session and the
texts of the commands passed to `sendCommand` during the call. The
session table update and the `sendCommand` call happen before
`m_activeSession` is reassigned at the end of the function. -/
def receiveSessionChanged (sessions : List (Int × String)) (activeSession : Int)
    (session : Int) (name : String) : List (Int × String) × Int × List String :=
  if (sessions.lookup session).isSome then
    (sessions.map (fun p => if p.1 = session then (p.1, name) else p), session, [])
  else
    ((session, name) :: sessions, session, [konsoleSizeCmd activeSession])

/-- The response handler of the `@konsole_size` command: `some (w, h)`
when `setGuiWindowSize(w, h)` is called, `none` when the handler returns
without doing so (absent or multi-line response, or an unexpected
character). -/
def parseKonsoleSizeLine (line : List Nat) : Option (Nat × Nat) :=
  (line.foldl
    (fun (st : Option (Nat × Nat × Nat)) cc =>
      match st with
      | none => none
      | some (arg, w, h) =>
        if 48 ≤ cc ∧ cc ≤ 57 then
          if arg = 0 then some (arg, w * 10 + (cc - 48), h)
          else some (arg, w, h * 10 + (cc - 48))
        else if arg = 0 ∧ cc = 44 then some (1, w, h)
        else none)
    (some (0, 0, 0))).map (fun t => (t.2.1, t.2.2))

/-- The guard around the parse: the handler acts only on a one-line
response body. -/
def konsoleSizeResponse (response : List (List Nat)) : Option (Nat × Nat) :=
  if response.length = 1 then parseKonsoleSizeLine (response.headD []) else none

/-- A single-quote character, kept out of string literals. -/
def sq : String := String.singleton (Char.ofNat 39)

/-- The command text issued by `TmuxServerManager::init`
(`Vt102Emulation.h:219`). -/
def lsSessionsCmd : String :=
  "ls -F " ++ sq ++ "#{session_id} #{q:session_name}" ++ sq

/-- One line of the `ls` response as scanned by
`TmuxServerManager::updateSessions` (`Vt102Emulation.h:223`): the
leading `$` and the digits accumulate into `session`, a space ends the
number, and the name is the remainder of the line starting at the index
`i` reached by the scan. -/
def parseSessionLine (line : List Nat) : Int × String :=
  let st := line.foldl
    (fun (a : Nat × Nat × Int) cc =>
      if a.1 = 0 ∧ cc = 36 then (a.1 + 1, a.2.1 + 1, a.2.2)
      else if a.1 = 1 ∧ 48 ≤ cc ∧ cc ≤ 57 then
        (a.1, a.2.1 + 1, a.2.2 * 10 + ((cc - 48 : Nat) : Int))
      else if a.1 = 1 ∧ cc = 32 then (a.1 + 1, a.2.1 + 1, a.2.2)
      else a)
    (0, 0, 0)
  (st.2.2, String.mk ((line.drop st.2.1).map Char.ofNat))

/-- The local `updatedSessions` vector that `updateSessions` fills (with
the spec-mandated reading of the ill-formed two-argument `push_back`
in the source, namely pushing the pair of session and name). -/
def updateSessionsLocal (response : List (List Nat)) : List (Int × String) :=
  response.map parseSessionLine

/-- The effect of `updateSessions` on the session table `m_sessions`:
the source only builds the local `updatedSessions` vector and never
writes the member table, so the table is returned unchanged. -/
def updateSessionsTable (sessions : List (Int × String))
    (_response : List (List Nat)) : List (Int × String) :=
  sessions

/-- The event trace used to exhibit the FIFO violation after an error
response: two commands are sent, the first fails, a third is sent, and
three responses follow. -/
def fifoCexTrace : List TmuxMgrEv :=
  [TmuxMgrEv.send 1, TmuxMgrEv.send 2, TmuxMgrEv.error,
   TmuxMgrEv.send 3, TmuxMgrEv.response, TmuxMgrEv.response, TmuxMgrEv.response]

/-- An error-free event trace used as a concrete witness: two commands
are queued behind a first one and three responses arrive. -/
def fifoWitnessTrace : List TmuxMgrEv :=
  [TmuxMgrEv.send 1, TmuxMgrEv.send 2, TmuxMgrEv.response,
   TmuxMgrEv.response, TmuxMgrEv.response]

/-! ## Properties of the shared octal-escape step -/

theorem octStep_backslash (o c : Nat) (L : List Nat) : octStep (o, c, L) 92 = (1, c, L) := rfl

theorem octStep_digit (o c cc : Nat) (ho1 : 0 < o) (ho2 : o < 3)
    (h1 : 48 ≤ cc) (h2 : cc ≤ 57) (L : List Nat) :
    octStep (o, c, L) cc = (o + 1, (c * 8 + (cc - 48)) % 4294967296, L) := by
  unfold octStep
  rw [if_neg (by omega), if_pos ⟨ho1, by omega⟩, if_pos ⟨h1, h2⟩, if_neg (by omega)]

theorem octStep_digit_last (c cc : Nat) (h1 : 48 ≤ cc) (h2 : cc ≤ 57) (L : List Nat) :
    octStep (3, c, L) cc = (0, 0, L ++ [(c * 8 + (cc - 48)) % 4294967296]) := by
  unfold octStep
  rw [if_neg (by omega), if_pos ⟨by omega, by omega⟩, if_pos ⟨h1, h2⟩, if_pos rfl]

theorem octStep_abort (o c cc : Nat) (ho1 : 0 < o) (ho2 : o < 4) (h92 : cc ≠ 92)
    (hnd : ¬ (48 ≤ cc ∧ cc ≤ 57)) (L : List Nat) :
    octStep (o, c, L) cc = (0, 0, L ++ [c, cc]) := by
  unfold octStep
  rw [if_neg h92, if_pos ⟨ho1, ho2⟩, if_neg hnd]

theorem octStep_plain (c cc : Nat) (h92 : cc ≠ 92) (L : List Nat) :
    octStep (0, c, L) cc = (0, c, L ++ [cc]) := by
  unfold octStep
  rw [if_neg h92, if_neg (by omega)]

/-- In the payload phase (`arg = 1`), `TmuxOutputNotification::push_char`
is exactly the shared escape step on its escape-state triple; `arg` and
`pane` are untouched. -/
theorem outputPushChar_payload (o c : Nat) (L : List Nat) (p : Int) (cc : Nat) :
    outputPushChar ⟨1, o, c, L, p⟩ cc =
      ⟨1, (octStep (o, c, L) cc).1, (octStep (o, c, L) cc).2.1,
        (octStep (o, c, L) cc).2.2, p⟩ := by
  simp only [outputPushChar, octStep]
  rw [if_neg (by omega)]
  split_ifs <;> rfl

/-- In the payload phase (`arg = 3`),
`TmuxExtendedOutputNotification::push_char` is exactly the shared escape
step on its escape-state triple; `arg`, `pane` and `age` are untouched. -/
theorem extOutputPushChar_payload (o c : Nat) (L : List Nat) (pe : Int) (age : Nat) (cc : Nat) :
    extOutputPushChar ⟨3, o, c, L, pe, age⟩ cc =
      ⟨3, (octStep (o, c, L) cc).1, (octStep (o, c, L) cc).2.1,
        (octStep (o, c, L) cc).2.2, pe, age⟩ := by
  simp only [extOutputPushChar, octStep]
  rw [if_neg (by omega), if_neg (by omega), if_neg (by omega), if_neg (by omega),
    if_pos trivial]
  split_ifs <;> rfl

/-- Payload-phase runs of `%output` compute the shared escape fold. -/
theorem outputRun_payload (cs : List Nat) :
    ∀ (o c : Nat) (L : List Nat) (p : Int),
      outputRun ⟨1, o, c, L, p⟩ cs =
        ⟨1, (octRun (o, c, L) cs).1, (octRun (o, c, L) cs).2.1,
          (octRun (o, c, L) cs).2.2, p⟩ := by
  induction cs with
  | nil => intro o c L p; rfl
  | cons x xs ih =>
    intro o c L p
    show outputRun (outputPushChar ⟨1, o, c, L, p⟩ x) xs = _
    rw [outputPushChar_payload, ih]
    rfl

/-- Payload-phase runs of `%extended-output` compute the shared escape fold. -/
theorem extOutputRun_payload (cs : List Nat) :
    ∀ (o c : Nat) (L : List Nat) (pe : Int) (age : Nat),
      extOutputRun ⟨3, o, c, L, pe, age⟩ cs =
        ⟨3, (octRun (o, c, L) cs).1, (octRun (o, c, L) cs).2.1,
          (octRun (o, c, L) cs).2.2, pe, age⟩ := by
  induction cs with
  | nil => intro o c L pe age; rfl
  | cons x xs ih =>
    intro o c L pe age
    show extOutputRun (extOutputPushChar ⟨3, o, c, L, pe, age⟩ x) xs = _
    rw [extOutputPushChar_payload, ih]
    rfl

/-! ## Claim C6 -/

/-- C6: the escape decoding that `TmuxExtendedOutputNotification::push_char`
applies to the payload argument (its `arg = 3` phase, after pane, age and
`:` have been consumed) is, as a function from input code-point sequences
to the escape state and decoded payload buffer, equal to the escape
decoding `TmuxOutputNotification::push_char` applies to the `%output`
payload (its `arg = 1` phase, after the pane argument). -/
theorem extended_output_escape_equiv (cs : List Nat) (o c : Nat) (L : List Nat)
    (pe : Int) (age : Nat) (po : Int) :
    ((extOutputRun ⟨3, o, c, L, pe, age⟩ cs).octParse,
      (extOutputRun ⟨3, o, c, L, pe, age⟩ cs).octParseChar,
      (extOutputRun ⟨3, o, c, L, pe, age⟩ cs).lexBuffer) =
    ((outputRun ⟨1, o, c, L, po⟩ cs).octParse,
      (outputRun ⟨1, o, c, L, po⟩ cs).octParseChar,
      (outputRun ⟨1, o, c, L, po⟩ cs).lexBuffer) := by
  rw [outputRun_payload, extOutputRun_payload]

/-! ## Claim C4 -/

/-- C4: for every byte `0 ≤ b ≤ 255`, feeding `\` followed by the three
octal digits of `b` to `TmuxOutputNotification::push_char` in the payload
phase appends exactly the single code point `b` to the payload buffer
that `execute` will deliver, losing no bytes and leaving the escape state
clean. -/
theorem output_octal_roundtrip (b : Nat) (hb : b ≤ 255) (L : List Nat) (p : Int) :
    outputRun ⟨1, 0, 0, L, p⟩ [92, 48 + b / 64, 48 + b / 8 % 8, 48 + b % 8] =
      ⟨1, 0, 0, L ++ [b], p⟩ := by
  rw [outputRun_payload]
  have h : octRun (0, 0, L) [92, 48 + b / 64, 48 + b / 8 % 8, 48 + b % 8] = (0, 0, L ++ [b]) := by
    show octStep (octStep (octStep (octStep (0, 0, L) 92)
        (48 + b / 64)) (48 + b / 8 % 8)) (48 + b % 8) = _
    rw [octStep_backslash, octStep_digit 1 0 _ (by omega) (by omega) (by omega) (by omega) L,
      octStep_digit 2 _ _ (by omega) (by omega) (by omega) (by omega) L,
      octStep_digit_last _ _ (by omega) (by omega) L]
    have hv : ((((0 * 8 + (48 + b / 64 - 48)) % 4294967296) * 8
        + (48 + b / 8 % 8 - 48)) % 4294967296 * 8
        + (48 + b % 8 - 48)) % 4294967296 = b := by omega
    rw [hv]
  rw [h]

/-- Witness for C4 at `b = 255` (octal `377`). -/
theorem output_octal_roundtrip_witness :
    outputRun ⟨1, 0, 0, [], 0⟩ [92, 51, 55, 55] = ⟨1, 0, 0, [255], 0⟩ := by
  have h := output_octal_roundtrip 255 (by decide) [] 0
  simpa using h

/-! ## Claim C5 -/

/-- C5 (amended): in the payload phase of `%output` (and of
`%extended-output`), a byte that is not a decimal digit and not `\` seen
during an octal escape aborts the escape — the partial accumulator and
the byte itself are appended — and re-enters pass-through mode; every
decimal digit `0`–`9` (so in particular `8` and `9`, which the original
claim said abort) is consumed as an escape digit with base-8
accumulation; outside an escape, bytes other than `\` pass through
unchanged. -/
theorem output_escape_decimal_digits (o c : Nat) (L : List Nat) (p pe : Int)
    (age : Nat) (cc : Nat) :
    (0 < o → o < 4 → cc ≠ 92 → ¬ (48 ≤ cc ∧ cc ≤ 57) →
      outputPushChar ⟨1, o, c, L, p⟩ cc = ⟨1, 0, 0, L ++ [c, cc], p⟩
      ∧ extOutputPushChar ⟨3, o, c, L, pe, age⟩ cc = ⟨3, 0, 0, L ++ [c, cc], pe, age⟩)
    ∧ (0 < o → o < 3 → 48 ≤ cc → cc ≤ 57 →
      outputPushChar ⟨1, o, c, L, p⟩ cc =
        ⟨1, o + 1, (c * 8 + (cc - 48)) % 4294967296, L, p⟩)
    ∧ (48 ≤ cc → cc ≤ 57 →
      outputPushChar ⟨1, 3, c, L, p⟩ cc =
        ⟨1, 0, 0, L ++ [(c * 8 + (cc - 48)) % 4294967296], p⟩)
    ∧ (cc ≠ 92 →
      outputPushChar ⟨1, 0, c, L, p⟩ cc = ⟨1, 0, c, L ++ [cc], p⟩
      ∧ extOutputPushChar ⟨3, 0, c, L, pe, age⟩ cc = ⟨3, 0, c, L ++ [cc], pe, age⟩) := by
  refine ⟨fun h1 h2 h3 h4 => ⟨?_, ?_⟩, fun h1 h2 h3 h4 => ?_, fun h1 h2 => ?_,
    fun h1 => ⟨?_, ?_⟩⟩
  · rw [outputPushChar_payload, octStep_abort o c cc h1 h2 h3 h4 L]
  · rw [extOutputPushChar_payload, octStep_abort o c cc h1 h2 h3 h4 L]
  · rw [outputPushChar_payload, octStep_digit o c cc h1 h2 h3 h4 L]
  · rw [outputPushChar_payload, octStep_digit_last c cc h1 h2 L]
  · rw [outputPushChar_payload, octStep_plain c cc h1 L]
  · rw [extOutputPushChar_payload, octStep_plain c cc h1 L]

/-- Witness for C5: an abort on `A` (0x41) with partial accumulator 4,
and digit `7` consumed mid-escape. -/
theorem output_escape_decimal_digits_witness :
    outputPushChar ⟨1, 2, 4, [], 0⟩ 65 = ⟨1, 0, 0, [4, 65], 0⟩
    ∧ outputPushChar ⟨1, 1, 0, [], 0⟩ 55 = ⟨1, 2, 7, [], 0⟩ := by
  have h := output_escape_decimal_digits 2 4 [] 0 0 0 65
  have h2 := output_escape_decimal_digits 1 0 [] 0 0 0 55
  refine ⟨(h.1 (by omega) (by omega) (by omega) (by omega)).1, ?_⟩
  have h3 := h2.2.1 (by omega) (by omega) (by omega) (by omega)
  simpa using h3

/-- Counterexample for C5 as stated: the digit `8` (0x38) seen during an
escape does not abort it — the escape counter advances to 2 — and the
input `\800` decodes to the single code point 512, not to pass-through
bytes. -/
theorem output_escape_digit89_not_abort :
    (outputPushChar ⟨1, 1, 0, [], 0⟩ 56).octParse = 2
    ∧ (outputPushChar ⟨1, 1, 0, [], 0⟩ 56).octParse ≠ 0
    ∧ (outputRun ⟨1, 0, 0, [], 0⟩ [92, 56, 48, 48]).lexBuffer = [512] := by decide

/-! ## The command-queue invariant -/

theorem keepSent_append (xs ys sends : List Nat) :
    keepSent (xs ++ ys) sends = keepSent xs sends ++ keepSent ys sends := by
  simp [keepSent, List.filter_append]

theorem keepSent_nil (sends : List Nat) : keepSent [] sends = [] := rfl

theorem keepSent_singleton (x : Nat) (sends : List Nat) :
    keepSent [x] sends = if x ∈ sends then [x] else [] := by
  by_cases h : x ∈ sends <;> simp [keepSent, h]

theorem keepSent_grow (xs sends : List Nat) (c : Nat)
    (hx : ∀ x ∈ xs, x = 0 ∨ x ∈ sends) (hc0 : c ≠ 0) :
    keepSent xs (sends ++ [c]) = keepSent xs sends := by
  unfold keepSent
  apply List.filter_congr
  intro x hx2
  rw [decide_eq_decide]
  rcases hx x hx2 with h | h
  · subst h
    simp only [List.mem_append, List.mem_singleton]
    constructor
    · rintro (h2 | h2)
      · exact h2
      · exact absurd h2.symm hc0
    · exact fun h2 => Or.inl h2
  · simp [List.mem_append, h]

theorem respDelivered_sub (s : TmuxMgrSt) : ∀ x ∈ respDelivered s, x ∈ mgrIds s := by
  intro x hx
  simp only [respDelivered, List.mem_filterMap] at hx
  obtain ⟨q, hq, hqe⟩ := hx
  split at hqe
  · exact absurd hqe (by simp)
  · have hx1 : q.1 = x := by injection hqe
    simp only [mgrIds, List.mem_append, List.mem_map]
    exact Or.inl (Or.inl ⟨q, hq, hx1⟩)

theorem current_sub (s : TmuxMgrSt) : ∀ x ∈ s.current.toList, x ∈ mgrIds s := by
  intro x hx
  simp only [mgrIds, List.mem_append]
  exact Or.inl (Or.inr hx)

theorem pending_sub (s : TmuxMgrSt) : ∀ x ∈ s.pending, x ∈ mgrIds s := by
  intro x hx
  simp only [mgrIds, List.mem_append]
  exact Or.inr hx

theorem respDelivered_append_ok (cur : Option Nat) (pend emit : List Nat)
    (del : List (Nat × Bool)) (c : Nat) :
    respDelivered ⟨cur, pend, emit, del ++ [(c, false)]⟩ =
      respDelivered ⟨cur, pend, emit, del⟩ ++ [c] := by
  simp [respDelivered, List.filterMap_append]

theorem mgrIds_mem_iff (cur : Option Nat) (pend emit : List Nat)
    (del : List (Nat × Bool)) (x : Nat) :
    x ∈ mgrIds ⟨cur, pend, emit, del⟩ ↔
      x ∈ del.map Prod.fst ∨ x ∈ cur.toList ∨ x ∈ pend := by
  simp [mgrIds, List.mem_append, or_assoc]

theorem append_chunk (A K P sends2 : List Nat) (c : Nat)
    (h : A ++ K ++ P = sends2) : A ++ K ++ (P ++ [c]) = sends2 ++ [c] := by
  rw [← h]
  simp [List.append_assoc]

/-- `sendCommand` with a fresh command preserves the queue invariant. -/
theorem mgrInv_send (s : TmuxMgrSt) (sends : List Nat) (c : Nat)
    (hI : mgrInv s sends) (hc0 : c ≠ 0) (_hcs : c ∉ sends) :
    mgrInv (tmuxMgrStep s (TmuxMgrEv.send c)) (sends ++ [c]) := by
  obtain ⟨hP, hA, hJ⟩ := hI
  have hAresp : ∀ x ∈ respDelivered s, x = 0 ∨ x ∈ sends :=
    fun x hx => hA x (respDelivered_sub s x hx)
  have hAcur : ∀ x ∈ s.current.toList, x = 0 ∨ x ∈ sends :=
    fun x hx => hA x (current_sub s x hx)
  have hApend : ∀ x ∈ s.pending, x = 0 ∨ x ∈ sends :=
    fun x hx => hA x (pending_sub s x hx)
  have hkc : keepSent [c] (sends ++ [c]) = [c] := by
    simp [keepSent_singleton]
  obtain ⟨cur, pend, emit, del⟩ := s
  cases cur with
  | none =>
    have hpend0 : keepSent pend sends = [] := hJ rfl
    have hresp : keepSent (respDelivered ⟨none, pend, emit, del⟩) sends = sends := by
      simpa [keepSent_nil, hpend0] using hP
    show mgrInv ⟨some c, pend, emit ++ [c], del⟩ (sends ++ [c])
    refine ⟨?_, ?_, ?_⟩
    · show keepSent (respDelivered ⟨some c, pend, emit ++ [c], del⟩) (sends ++ [c])
          ++ keepSent [c] (sends ++ [c]) ++ keepSent pend (sends ++ [c]) = sends ++ [c]
      have hre : respDelivered ⟨some c, pend, emit ++ [c], del⟩
          = respDelivered ⟨none, pend, emit, del⟩ := rfl
      rw [hre, keepSent_grow _ _ _ hAresp hc0, keepSent_grow _ _ _ hApend hc0, hkc,
        hresp, hpend0, List.append_nil]
    · intro x hx
      rw [mgrIds_mem_iff] at hx
      rcases hx with hx | hx | hx
      · rcases hA x ((mgrIds_mem_iff _ _ _ _ x).mpr (Or.inl hx)) with h | h
        · exact Or.inl h
        · exact Or.inr (List.mem_append.mpr (Or.inl h))
      · have hxc : x = c := by simpa using hx
        exact Or.inr (List.mem_append.mpr (Or.inr (by simp [hxc])))
      · rcases hA x ((mgrIds_mem_iff _ _ _ _ x).mpr (Or.inr (Or.inr hx))) with h | h
        · exact Or.inl h
        · exact Or.inr (List.mem_append.mpr (Or.inl h))
    · intro h
      exact Option.noConfusion h
  | some a =>
    have hacur : ∀ x ∈ [a], x = 0 ∨ x ∈ sends := by
      intro x hx
      exact hAcur x (by simpa using hx)
    show mgrInv ⟨some a, pend ++ [c], emit, del⟩ (sends ++ [c])
    refine ⟨?_, ?_, ?_⟩
    · show keepSent (respDelivered ⟨some a, pend ++ [c], emit, del⟩) (sends ++ [c])
          ++ keepSent [a] (sends ++ [c]) ++ keepSent (pend ++ [c]) (sends ++ [c])
          = sends ++ [c]
      have hre : respDelivered ⟨some a, pend ++ [c], emit, del⟩
          = respDelivered ⟨some a, pend, emit, del⟩ := rfl
      rw [hre, keepSent_append, keepSent_grow _ _ _ hAresp hc0,
        keepSent_grow _ _ _ hacur hc0, keepSent_grow _ _ _ hApend hc0, hkc]
      refine append_chunk _ _ _ _ c ?_
      simpa using hP
    · intro x hx
      rw [mgrIds_mem_iff] at hx
      rcases hx with hx | hx | hx
      · rcases hA x ((mgrIds_mem_iff _ _ _ _ x).mpr (Or.inl hx)) with h | h
        · exact Or.inl h
        · exact Or.inr (List.mem_append.mpr (Or.inl h))
      · rcases hA x ((mgrIds_mem_iff _ _ _ _ x).mpr (Or.inr (Or.inl hx))) with h | h
        · exact Or.inl h
        · exact Or.inr (List.mem_append.mpr (Or.inl h))
      · rcases List.mem_append.mp hx with hx2 | hx2
        · rcases hA x ((mgrIds_mem_iff _ _ _ _ x).mpr (Or.inr (Or.inr hx2))) with h | h
          · exact Or.inl h
          · exact Or.inr (List.mem_append.mpr (Or.inl h))
        · have hxc : x = c := by simpa using hx2
          exact Or.inr (List.mem_append.mpr (Or.inr (by simp [hxc])))
    · intro h
      exact Option.noConfusion h

/-- `receiveCommandResponse` preserves the queue invariant. -/
theorem mgrInv_resp (s : TmuxMgrSt) (sends : List Nat) (hI : mgrInv s sends) :
    mgrInv (tmuxMgrStep s TmuxMgrEv.response) sends := by
  obtain ⟨hP, hA, hJ⟩ := hI
  obtain ⟨cur, pend, emit, del⟩ := s
  cases cur with
  | none => exact ⟨hP, hA, hJ⟩
  | some c =>
    cases pend with
    | nil =>
      show mgrInv ⟨none, [], emit, del ++ [(c, false)]⟩ sends
      refine ⟨?_, ?_, ?_⟩
      · show keepSent (respDelivered ⟨none, [], emit, del ++ [(c, false)]⟩) sends
            ++ keepSent [] sends ++ keepSent [] sends = sends
        rw [respDelivered_append_ok, keepSent_append]
        have hP2 : keepSent (respDelivered ⟨some c, [], emit, del⟩) sends
            ++ keepSent [c] sends = sends := by
          simpa [keepSent_nil] using hP
        simp only [keepSent_nil, List.append_nil]
        exact hP2
      · intro x hx
        rw [mgrIds_mem_iff] at hx
        rcases hx with hx | hx | hx
        · rw [List.map_append] at hx
          rcases List.mem_append.mp hx with hx2 | hx2
          · exact hA x ((mgrIds_mem_iff _ _ _ _ x).mpr (Or.inl hx2))
          · have hxc : x = c := by simpa using hx2
            exact hA x ((mgrIds_mem_iff _ _ _ _ x).mpr (Or.inr (Or.inl (by simp [hxc]))))
        · cases hx
        · cases hx
      · intro _
        rfl
    | cons d rest =>
      show mgrInv ⟨some d, rest, emit ++ [d], del ++ [(c, false)]⟩ sends
      refine ⟨?_, ?_, ?_⟩
      · show keepSent (respDelivered ⟨some d, rest, emit ++ [d], del ++ [(c, false)]⟩) sends
            ++ keepSent [d] sends ++ keepSent rest sends = sends
        have hre : respDelivered ⟨some d, rest, emit ++ [d], del ++ [(c, false)]⟩
            = respDelivered ⟨some c, d :: rest, emit, del⟩ ++ [c] :=
          respDelivered_append_ok _ _ _ _ _
        rw [hre, keepSent_append]
        have hP2 : keepSent (respDelivered ⟨some c, d :: rest, emit, del⟩) sends
            ++ keepSent [c] sends ++ (keepSent [d] sends ++ keepSent rest sends)
            = sends := by
          have hcons : keepSent (d :: rest) sends
              = keepSent [d] sends ++ keepSent rest sends := by
            rw [← List.singleton_append, keepSent_append]
          simpa [hcons] using hP
        simp only [List.append_assoc] at hP2 ⊢
        exact hP2
      · intro x hx
        rw [mgrIds_mem_iff] at hx
        rcases hx with hx | hx | hx
        · rw [List.map_append] at hx
          rcases List.mem_append.mp hx with hx2 | hx2
          · exact hA x ((mgrIds_mem_iff _ _ _ _ x).mpr (Or.inl hx2))
          · have hxc : x = c := by simpa using hx2
            exact hA x ((mgrIds_mem_iff _ _ _ _ x).mpr (Or.inr (Or.inl (by simp [hxc]))))
        · have hxd : x = d := by simpa using hx
          exact hA x ((mgrIds_mem_iff _ _ _ _ x).mpr (Or.inr (Or.inr (by simp [hxd]))))
        · exact hA x ((mgrIds_mem_iff _ _ _ _ x).mpr (Or.inr (Or.inr (by simp [hx]))))
      · intro h
        exact Option.noConfusion h

theorem sendIds_append (es fs : List TmuxMgrEv) :
    sendIds (es ++ fs) = sendIds es ++ sendIds fs := by
  simp [sendIds, List.filterMap_append]

/-- The queue invariant holds after every error-free trace whose
`sendCommand` identifiers are fresh and distinct. -/
theorem mgrInv_run (es : List TmuxMgrEv) (hef : errorFree es)
    (hnd : (0 :: sendIds es).Nodup) : mgrInv (tmuxMgrRun es) (sendIds es) := by
  induction es using List.reverseRecOn with
  | nil => decide
  | append_singleton es e ih =>
    have hef2 : errorFree es := fun x hx => hef x (by simp [hx])
    have he : e ≠ TmuxMgrEv.error := hef e (by simp)
    have hrun : tmuxMgrRun (es ++ [e]) = tmuxMgrStep (tmuxMgrRun es) e := by
      simp [tmuxMgrRun, List.foldl_append]
    rw [hrun]
    cases e with
    | error => exact absurd rfl he
    | response =>
      have hs : sendIds (es ++ [TmuxMgrEv.response]) = sendIds es := by
        simp [sendIds_append, sendIds]
      rw [hs] at hnd ⊢
      exact mgrInv_resp _ _ (ih hef2 hnd)
    | send c =>
      have hs : sendIds (es ++ [TmuxMgrEv.send c]) = sendIds es ++ [c] := by
        simp [sendIds_append, sendIds]
      rw [hs] at hnd ⊢
      simp only [List.nodup_cons, List.nodup_append, List.nodup_singleton,
        List.disjoint_singleton, List.mem_append, List.mem_singleton, not_or] at hnd
      obtain ⟨⟨h0s, h0c⟩, hnds, _, hcs⟩ := hnd
      have h1 : (0 :: sendIds es).Nodup := by
        rw [List.nodup_cons]
        exact ⟨h0s, hnds⟩
      exact mgrInv_send _ _ c (ih hef2 h1) (fun h => h0c h.symm) hcs

/-! ## Claim C1 -/

/-- C1 (amended to error-free traces): along any trace of `sendCommand`
calls and successful responses in which no `%error` arrives, at most one
command is in flight, and the commands already dispatched to their
response handlers, the in-flight command and the queued commands — each
restricted to the commands passed to `sendCommand` — laid end to end are
exactly the `sendCommand` calls in call order. In particular response
handlers fire in send order and the pending queue preserves insertion
order. (With an `%error` in the trace this fails, because
`receiveCommandError` does not advance the queue.) -/
theorem tmux_command_fifo_no_error (es : List TmuxMgrEv) (hef : errorFree es)
    (hnd : (0 :: sendIds es).Nodup) :
    keepSent (respDelivered (tmuxMgrRun es)) (sendIds es)
      ++ keepSent (tmuxMgrRun es).current.toList (sendIds es)
      ++ keepSent (tmuxMgrRun es).pending (sendIds es) = sendIds es
    ∧ (tmuxMgrRun es).current.toList.length ≤ 1 := by
  refine ⟨(mgrInv_run es hef hnd).1, ?_⟩
  cases (tmuxMgrRun es).current <;> simp

/-- Witness for C1 on a concrete five-event trace. -/
theorem tmux_command_fifo_no_error_witness :
    keepSent (respDelivered (tmuxMgrRun fifoWitnessTrace)) (sendIds fifoWitnessTrace)
      ++ keepSent (tmuxMgrRun fifoWitnessTrace).current.toList (sendIds fifoWitnessTrace)
      ++ keepSent (tmuxMgrRun fifoWitnessTrace).pending (sendIds fifoWitnessTrace)
      = sendIds fifoWitnessTrace
    ∧ (tmuxMgrRun fifoWitnessTrace).current.toList.length ≤ 1 :=
  tmux_command_fifo_no_error fifoWitnessTrace (by decide) (by decide)

/-- Counterexample for C1 as stated (with errors permitted): on
`fifoCexTrace`, command 2 is sent before command 3, yet the response
handler of 3 fires before that of 2 — the delivered-response list is
`[3, 0, 2]` — so the FIFO equation fails. -/
theorem tmux_command_fifo_error_cex :
    (0 :: sendIds fifoCexTrace).Nodup
    ∧ respDelivered (tmuxMgrRun fifoCexTrace) = [3, 0, 2]
    ∧ keepSent (respDelivered (tmuxMgrRun fifoCexTrace)) (sendIds fifoCexTrace)
        ++ keepSent (tmuxMgrRun fifoCexTrace).current.toList (sendIds fifoCexTrace)
        ++ keepSent (tmuxMgrRun fifoCexTrace).pending (sendIds fifoCexTrace)
      ≠ sendIds fifoCexTrace := by decide

/-! ## Claim C3 -/

/-- C3: when an error body arrives while command 1 is in flight and the
queue holds the attach command 0 and command 2, the error handler of 1
is invoked and the in-flight slot becomes empty — but, contrary to the
claim, the next queued command is not dequeued and nothing is emitted:
the queue still holds `[0, 2]` and the emitted list is unchanged. -/
theorem commandError_does_not_advance_queue :
    tmuxMgrRun [TmuxMgrEv.send 1, TmuxMgrEv.send 2, TmuxMgrEv.error] =
      ⟨none, [0, 2], [1], [(1, true)]⟩
    ∧ (tmuxMgrRun [TmuxMgrEv.send 1, TmuxMgrEv.send 2, TmuxMgrEv.error]).pending ≠ []
    ∧ (tmuxMgrRun [TmuxMgrEv.send 1, TmuxMgrEv.send 2, TmuxMgrEv.error]).emitted
      = (tmuxMgrRun [TmuxMgrEv.send 1, TmuxMgrEv.send 2]).emitted := by decide

/-! ## Lemmas on trimming and digit strings -/

theorem dropWhile_of_head (p : Nat → Bool) (l : List Nat)
    (h : ∀ x ∈ l, p x = false) : l.dropWhile p = l := by
  cases l with
  | nil => rfl
  | cons a l =>
    rw [List.dropWhile_cons, h a (by simp)]
    simp

theorem trimWs_no_space (l : List Nat) (h : ∀ x ∈ l, isSpaceCh x = false) :
    trimWs l = l := by
  unfold trimWs
  rw [dropWhile_of_head _ _ h,
    dropWhile_of_head _ _ (fun x hx => h x (List.mem_reverse.mp hx)),
    List.reverse_reverse]

theorem digit_not_space (x : Nat) (h : isDigitCh x = true) : isSpaceCh x = false := by
  simp only [isDigitCh, decide_eq_true_eq] at h
  simp only [isSpaceCh, decide_eq_false_iff_not]
  omega

theorem signSplit_digit (d : Nat) (ds : List Nat) (h1 : 48 ≤ d) :
    signSplit (d :: ds) = (1, d :: ds) := by
  unfold signSplit
  rw [if_neg (by simp only [List.headD_cons]; omega),
    if_neg (by simp only [List.headD_cons]; omega)]

theorem signSplit_neg (ds : List Nat) : signSplit (45 :: ds) = (-1, ds) := by
  unfold signSplit
  rw [if_neg (by simp), if_pos (by simp)]
  simp

/-- The value and `ok` flag of the `toInt` model on an unsigned digit
string fitting in `int`. -/
theorem qstringToInt_digits (d : Nat) (ds : List Nat)
    (hall : (d :: ds).all isDigitCh = true) (hlt : digitsVal (d :: ds) < 2147483648) :
    qstringToInt (d :: ds) = ((digitsVal (d :: ds) : Int), true) := by
  have hmem : ∀ x ∈ d :: ds, isDigitCh x = true := List.all_eq_true.mp hall
  have hd : 48 ≤ d := by
    have := hmem d (by simp)
    simp only [isDigitCh, decide_eq_true_eq] at this
    omega
  have htrim : trimWs (d :: ds) = d :: ds :=
    trimWs_no_space _ (fun x hx => digit_not_space x (hmem x hx))
  unfold qstringToInt
  rw [htrim, signSplit_digit d ds hd]
  rw [if_pos ⟨by simp, hall⟩, if_pos (by push_cast; omega)]
  simp

/-- The value and `ok` flag of the `toInt` model on a `-`-signed digit
string fitting in `int`. -/
theorem qstringToInt_neg_digits (d : Nat) (ds : List Nat)
    (hall : (d :: ds).all isDigitCh = true) (hle : digitsVal (d :: ds) ≤ 2147483648) :
    qstringToInt (45 :: d :: ds) = (-(digitsVal (d :: ds) : Int), true) := by
  have hmem : ∀ x ∈ d :: ds, isDigitCh x = true := List.all_eq_true.mp hall
  have htrim : trimWs (45 :: d :: ds) = 45 :: d :: ds := by
    apply trimWs_no_space
    intro x hx
    rcases List.mem_cons.mp hx with hx2 | hx2
    · subst hx2
      decide
    · exact digit_not_space x (hmem x hx2)
  unfold qstringToInt
  rw [htrim, signSplit_neg]
  rw [if_pos ⟨by simp, hall⟩, if_pos (by push_cast; omega)]
  simp

/-! ## Claim C7 -/

/-- C7 (amended): for each prefix character `C` of `$`, `@`, `%`, and a
non-null `ok`: the exact buffer `<C>*` yields −1 with `*ok = true`;
a buffer `<C>` followed by one or more decimal digits whose value fits
in a 32-bit `int` yields that value with `*ok = true`; a buffer `<C>`
followed by `-` and digits (which the original claim said is an error)
yields the negated value with `*ok = true`; and every buffer that is
neither the wildcard nor `<C>` followed by a string accepted by the
C-locale `toInt` (so also any digit string overflowing `int`) sets
`*ok` to `false`. -/
theorem parseTmuxId_characterization (C : Nat) (_hC : C = 36 ∨ C = 64 ∨ C = 37) :
    parseTmuxId C [C, 42] true = (some (-1), some true)
    ∧ (∀ d ds, (d :: ds).all isDigitCh = true → digitsVal (d :: ds) < 2147483648 →
        parseTmuxId C (C :: d :: ds) true = (some ((digitsVal (d :: ds) : Int)), some true))
    ∧ (∀ d ds, (d :: ds).all isDigitCh = true → digitsVal (d :: ds) ≤ 2147483648 →
        parseTmuxId C (C :: 45 :: d :: ds) true
          = (some (-(digitsVal (d :: ds) : Int)), some true))
    ∧ (∀ buf : List Nat, ¬ (buf.length = 2 ∧ buf.headD 0 = C ∧ buf.getD 1 0 = 42) →
        ¬ (2 ≤ buf.length ∧ buf.headD 0 = C ∧ (qstringToInt (buf.drop 1)).2 = true) →
        (parseTmuxId C buf true).2 = some false) := by
  refine ⟨?_, ?_, ?_, ?_⟩
  · unfold parseTmuxId
    rw [if_pos ⟨rfl, rfl, rfl⟩]
    rfl
  · intro d ds hall hlt
    have hmem : ∀ x ∈ d :: ds, isDigitCh x = true := List.all_eq_true.mp hall
    have hd : 48 ≤ d ∧ d ≤ 57 := by
      have := hmem d (by simp)
      simp only [isDigitCh, decide_eq_true_eq] at this
      omega
    unfold parseTmuxId
    rw [if_neg ?hne1, if_pos ⟨by simp, by simp⟩]
    case hne1 =>
      intro hcond
      have h42 : d = 42 := by simpa using hcond.2.2
      omega
    have hdrop : (C :: d :: ds).drop 1 = d :: ds := rfl
    rw [hdrop, qstringToInt_digits d ds hall hlt]
    rfl
  · intro d ds hall hle
    unfold parseTmuxId
    rw [if_neg ?hne2, if_pos ⟨by simp, by simp⟩]
    case hne2 =>
      intro hcond
      have hlen := hcond.1
      simp only [List.length_cons] at hlen
      omega
    have hdrop : (C :: 45 :: d :: ds).drop 1 = 45 :: d :: ds := rfl
    rw [hdrop, qstringToInt_neg_digits d ds hall hle]
    rfl
  · intro buf h1 h2
    unfold parseTmuxId
    rw [if_neg h1]
    by_cases hb : 2 ≤ buf.length ∧ buf.headD 0 = C
    · rw [if_pos hb]
      have hok : (qstringToInt (buf.drop 1)).2 = false := by
        cases hq : (qstringToInt (buf.drop 1)).2 with
        | false => rfl
        | true => exact absurd ⟨hb.1, hb.2, hq⟩ h2
      rw [List.drop_one] at hok
      simp [hok]
    · rw [if_neg hb, if_pos rfl]

/-- Witness for C7: the wildcard `$*` and the plain buffer `$5`. -/
theorem parseTmuxId_characterization_witness :
    parseTmuxId 36 [36, 42] true = (some (-1), some true)
    ∧ parseTmuxId 36 [36, 53] true = (some 5, some true) := by
  have h := parseTmuxId_characterization 36 (Or.inl rfl)
  refine ⟨h.1, ?_⟩
  have h2 := h.2.1 53 [] (by decide) (by decide)
  simpa using h2

/-- Counterexample for C7 as stated: the buffer `$-5` is neither `$*`
nor `$` followed by decimal digits, yet `parseTmuxId` returns −5 with
`*ok = true` instead of reporting an error. -/
theorem parseTmuxId_accepts_signed :
    parseTmuxId 36 [36, 45, 53] true = (some (-5), some true)
    ∧ ¬ ([45, 53].all isDigitCh = true)
    ∧ [36, 45, 53] ≠ [36, 42] := by decide

/-! ## Claim C10 -/

/-- C10: calling `parseTmuxId` with `ok = nullptr` on a buffer that is
too short (or has the wrong prefix) executes no branch that assigns the
local `ret`, so the returned `int` is an uninitialized read — the model
returns `none` for the result — contradicting the claim that the value
is always well defined. -/
theorem parseTmuxId_null_ok_uninitialized :
    parseTmuxId 36 [] false = (none, none)
    ∧ parseTmuxId 36 [65, 66] false = (none, none) := by decide

/-! ## Claim C2 -/

/-- C2: on a fresh manager (`m_activeSession = -1`), a
`%session-changed` notification for the new session 5 named `x` creates
the session record and sets the active session to 5, but the follow-up
command text is `show -v -q -t $-1 @konsole_size` — formatted from the
old `m_activeSession`, not from the session id 5 of the notification as the
claim states. The size-response handler itself parses `3,4` to (3, 4). -/
theorem sessionChanged_sends_old_active_session :
    receiveSessionChanged [] (-1) 5 "x" = ([(5, "x")], 5, [konsoleSizeCmd (-1)])
    ∧ konsoleSizeCmd (-1) = "show -v -q -t $-1 @konsole_size"
    ∧ konsoleSizeCmd (-1) ≠ "show -v -q -t $5 @konsole_size"
    ∧ konsoleSizeResponse [[51, 44, 52]] = some (3, 4) := by decide

/-! ## Claim C8 -/

/-- C8: the window-id digit test `cc > 0x30` rejects the digit `0`:
feeding `@0` (or `@10`) to `TmuxWindowAddNotification` yields the error
value −2 instead of the window id 0 (resp. 10); and
`TmuxUnlinkedWindowAddNotification` errors on every line — even `@1` —
because its missing `else` lets the `@` fall through into the digit
test. -/
theorem window_add_rejects_zero_digit :
    (windowAddRun ⟨0, 0⟩ [64, 48]).window = -2
    ∧ (windowAddRun ⟨0, 0⟩ [64, 49, 48]).window = -2
    ∧ (windowAddRun ⟨0, 0⟩ [64, 49, 50]).window = 12
    ∧ (unlinkedWindowAddRun ⟨0, 0⟩ [64, 49]).window = -2
    ∧ ((-2 : Int) ≠ 0 ∧ (-2 : Int) ≠ 10 ∧ (-2 : Int) ≠ 1) := by decide

/-! ## Claim C9 -/

/-- C9: `init` issues exactly the text
`ls -F ...` quoting the session id and name formats (spelled out as code points
below), and `updateSessions` parses the response line `$0 default` into
the pair `(0, "default")` — but only into the local `updatedSessions`
vector: the member session table is left unchanged, contradicting the
claim that the pairs are recorded in the session table of the server. -/
theorem updateSessions_discards_results :
    updateSessionsLocal [[36, 48, 32, 100, 101, 102, 97, 117, 108, 116]] = [(0, "default")]
    ∧ updateSessionsLocal [[36, 49, 50, 32, 97, 98]] = [(12, "ab")]
    ∧ updateSessionsTable [(7, "seven")] [[36, 48, 32, 100, 101, 102, 97, 117, 108, 116]]
      = [(7, "seven")]
    ∧ lsSessionsCmd.toList.map Char.toNat =
      [108, 115, 32, 45, 70, 32, 39, 35, 123, 115, 101, 115, 115, 105, 111, 110, 95,
        105, 100, 125, 32, 35, 123, 113, 58, 115, 101, 115, 115, 105, 111, 110, 95,
        110, 97, 109, 101, 125, 39] := by decide

end Konsole
